import Mathlib

/-!
Verification of the pixelprovenance payload codec and scanners.

The TypeScript sources are embedded shallowly:

* JavaScript 32-bit integer coercions (the operators << >> >>> & | applied
  to numbers) are modelled exactly: operands are coerced through two's
  complement 32-bit (toInt32 and toUint32 below) just as ECMAScript
  specifies, so signed wraparound behaviour is captured.
* Byte buffers (pixel data, payload byte arrays) are List Nat; an
  out-of-range JavaScript index read yields undefined, whose uses in the
  sources are either arithmetic (where ToInt32 gives 0, modelled by
  List.getD with default 0) or strict equality against a number (always
  false, modelled by Option equality on List.getElem?).
* Strings are handled at the byte level: viewId and sha values are lists
  of their character codes (the sources restrict sha to ASCII, where the
  UTF-8 bytes coincide with the codes).
* Grayscale values of the perceptual decoder are rationals standing for
  the exact real arithmetic of the source; the Pearson correlation score
  of decoder/decode.ts is floating point (Math.sqrt), so scanners take
  the score function as an explicit parameter.
-/

/-! ## JavaScript 32-bit integer semantics -/

/-- Modulus of JavaScript 32-bit coercions. -/
def pow32 : Nat := 4294967296

/-- ECMAScript ToUint32 of an integer value. -/
def toUint32 (n : Int) : Nat := (n % (pow32 : Int)).toNat

/-- ECMAScript ToInt32 of an integer value (two's complement reading). -/
def toInt32 (n : Int) : Int :=
  if toUint32 n < 2147483648 then (toUint32 n : Int) else (toUint32 n : Int) - (pow32 : Int)

/-- JavaScript a << k for a literal shift amount k (< 32 in all uses). -/
def jsShl (a : Int) (k : Nat) : Int := toInt32 (a * 2 ^ (k % 32))

/-- JavaScript a >> k: arithmetic (sign-propagating) right shift. For a
positive divisor, Int division in Lean is floor division, which is the
behaviour of the arithmetic shift. -/
def jsShr (a : Int) (k : Nat) : Int := toInt32 a / 2 ^ (k % 32)

/-- JavaScript a | b. -/
def jsOr (a b : Int) : Int := toInt32 ((toUint32 a ||| toUint32 b : Nat))

/-- JavaScript a & b. -/
def jsAnd (a b : Int) : Int := toInt32 ((toUint32 a &&& toUint32 b : Nat))

/-- JavaScript a >>> 0, the unsigned reinterpretation of a 32-bit value. -/
def jsUshr0 (a : Int) : Nat := toUint32 a

/-- Byte extraction (v >> k) & 0xff as the encoders write multibyte fields. -/
def jsByte (v : Nat) (k : Nat) : Nat := (jsAnd (jsShr (v : Int) k) 255).toNat

theorem pow32_eq : pow32 = 2 ^ 32 := by norm_num [pow32]

theorem toUint32_lt (n : Int) : toUint32 n < pow32 := by
  unfold toUint32 pow32; omega

theorem toUint32_toInt32 (n : Int) : toUint32 (toInt32 n) = toUint32 n := by
  unfold toInt32 toUint32 pow32
  split <;> omega

theorem toUint32_natCast (n : Nat) (h : n < pow32) : toUint32 (n : Int) = n := by
  unfold toUint32 pow32 at *; omega

theorem toInt32_natCast (n : Nat) (h : n < 2147483648) : toInt32 (n : Int) = (n : Int) := by
  unfold toInt32 toUint32 pow32
  split <;> omega

theorem toUint32_jsOr (a b : Int) :
    toUint32 (jsOr a b) = toUint32 a ||| toUint32 b := by
  unfold jsOr
  rw [toUint32_toInt32]
  refine toUint32_natCast _ ?_
  rw [pow32_eq]
  exact Nat.or_lt_two_pow (pow32_eq ▸ toUint32_lt a) (pow32_eq ▸ toUint32_lt b)

theorem toUint32_jsShl (b : Nat) (k : Nat) (h : b * 2 ^ (k % 32) < pow32) :
    toUint32 (jsShl (b : Int) k) = b * 2 ^ (k % 32) := by
  unfold jsShl
  rw [toUint32_toInt32]
  rw [show ((b : Int) * 2 ^ (k % 32)) = ((b * 2 ^ (k % 32) : Nat) : Int) by push_cast; ring]
  exact toUint32_natCast _ h

theorem jsAnd_255 (a : Int) : jsAnd a 255 = ((toUint32 a % 256 : Nat) : Int) := by
  unfold jsAnd
  have h255 : toUint32 (255 : Int) = 255 := toUint32_natCast 255 (by unfold pow32; omega)
  rw [h255]
  have : toUint32 a &&& 255 = toUint32 a % 256 := by
    have := Nat.and_pow_two_sub_one_eq_mod (toUint32 a) 8
    norm_num at this
    exact this
  rw [this]
  exact toInt32_natCast _ (by omega)

/-- Recombination of four in-range bytes by the decoder chain
((b0 << 24) | (b1 << 16) | (b2 << 8) | b3) >>> 0. -/
theorem jsU32_of_bytes (b0 b1 b2 b3 : Nat)
    (h0 : b0 < 256) (h1 : b1 < 256) (h2 : b2 < 256) (h3 : b3 < 256) :
    jsUshr0 (jsOr (jsOr (jsOr (jsShl (b0 : Int) 24) (jsShl (b1 : Int) 16))
        (jsShl (b2 : Int) 8)) (b3 : Int))
      = b0 * 2 ^ 24 + b1 * 2 ^ 16 + b2 * 2 ^ 8 + b3 := by
  unfold jsUshr0
  rw [toUint32_jsOr, toUint32_jsOr, toUint32_jsOr]
  rw [toUint32_jsShl b0 24 (by unfold pow32; norm_num; omega)]
  rw [toUint32_jsShl b1 16 (by unfold pow32; norm_num; omega)]
  rw [toUint32_jsShl b2 8 (by unfold pow32; norm_num; omega)]
  rw [toUint32_natCast b3 (by unfold pow32; omega)]
  norm_num
  have e1 : b0 * 16777216 ||| b1 * 65536 = b0 * 16777216 + b1 * 65536 := by
    have h : b1 * 65536 < 2 ^ 24 := by norm_num; omega
    have := Nat.mul_add_lt_is_or h b0
    calc b0 * 16777216 ||| b1 * 65536 = 2 ^ 24 * b0 ||| b1 * 65536 := by ring_nf
      _ = 2 ^ 24 * b0 + b1 * 65536 := (Nat.mul_add_lt_is_or h b0).symm
      _ = b0 * 16777216 + b1 * 65536 := by ring
  rw [e1]
  have e2 : b0 * 16777216 + b1 * 65536 ||| b2 * 256
      = b0 * 16777216 + b1 * 65536 + b2 * 256 := by
    have h : b2 * 256 < 2 ^ 16 := by norm_num; omega
    calc b0 * 16777216 + b1 * 65536 ||| b2 * 256
        = 2 ^ 16 * (b0 * 256 + b1) ||| b2 * 256 := by ring_nf
      _ = 2 ^ 16 * (b0 * 256 + b1) + b2 * 256 := (Nat.mul_add_lt_is_or h _).symm
      _ = b0 * 16777216 + b1 * 65536 + b2 * 256 := by ring
  rw [e2]
  have e3 : b0 * 16777216 + b1 * 65536 + b2 * 256 ||| b3
      = b0 * 16777216 + b1 * 65536 + b2 * 256 + b3 := by
    have h : b3 < 2 ^ 8 := by norm_num; omega
    calc b0 * 16777216 + b1 * 65536 + b2 * 256 ||| b3
        = 2 ^ 8 * (b0 * 65536 + b1 * 256 + b2) ||| b3 := by ring_nf
      _ = 2 ^ 8 * (b0 * 65536 + b1 * 256 + b2) + b3 := (Nat.mul_add_lt_is_or h _).symm
      _ = b0 * 16777216 + b1 * 65536 + b2 * 256 + b3 := by ring
  rw [e3]

theorem jsByte_24 (v : Nat) (hv : v < pow32) : jsByte v 24 = v / 2 ^ 24 % 256 := by
  unfold jsByte jsShr
  rw [jsAnd_255]
  unfold toInt32 toUint32 pow32 at *
  norm_num
  split <;> omega

theorem jsByte_16 (v : Nat) (hv : v < pow32) : jsByte v 16 = v / 2 ^ 16 % 256 := by
  unfold jsByte jsShr
  rw [jsAnd_255]
  unfold toInt32 toUint32 pow32 at *
  norm_num
  split <;> omega

theorem jsByte_8 (v : Nat) (hv : v < pow32) : jsByte v 8 = v / 2 ^ 8 % 256 := by
  unfold jsByte jsShr
  rw [jsAnd_255]
  unfold toInt32 toUint32 pow32 at *
  norm_num
  split <;> omega

theorem jsByte_0 (v : Nat) : jsByte v 0 = v % 256 := by
  unfold jsByte jsShr
  rw [jsAnd_255]
  unfold toInt32 toUint32 pow32 at *
  norm_num
  split <;> omega

theorem jsByte_lt (v k : Nat) : jsByte v k < 256 := by
  unfold jsByte
  rw [jsAnd_255]
  omega

/-! ## Shared codec pieces -/

/-- XOR reduction bytes.reduce((acc, b) => acc ^ b, 0) used by encoder and
decoder for the checksum (all operands are bytes, where JavaScript ^ is
plain Nat xor). -/
def xorChecksum (l : List Nat) : Nat := l.foldl (fun acc b => acc ^^^ b) 0

/-- Model of String.replace(/0+$/, "") on a list of ASCII codes: drop the
trailing run of "0" characters (code 48). -/
def stripTrailingZeroChars (l : List Nat) : List Nat :=
  (l.reverse.dropWhile (fun c => c == 48)).reverse

/-- Both decoders read 4-byte big-endian fields through this chain of
JavaScript int32 operations: (b0 << 24) | (b1 << 16) | (b2 << 8) | b3. -/
def i32FromBytes (b0 b1 b2 b3 : Nat) : Int :=
  jsOr (jsOr (jsOr (jsShl (b0 : Int) 24) (jsShl (b1 : Int) 16)) (jsShl (b2 : Int) 8)) (b3 : Int)

/-- Timestamp field decode: the same chain followed by >>> 0
(the unsigned reinterpretation the sources apply only to the timestamp). -/
def timestampDecode (b0 b1 b2 b3 : Nat) : Nat := jsUshr0 (i32FromBytes b0 b1 b2 b3)

/-- Decoded record of the exact scheme (decode-devtag / decode-shadow).
version, flags and checksum come from single unchecked index reads, so they
are undefined (none) when the read runs past the buffer; routeHash keeps the
signed int32 the source computes. -/
structure DecodedPayload where
  version : Option Nat
  flags : Option Nat
  routeHash : Int
  sha : List Nat
  viewId : List Nat
  timestamp : Nat
  checksum : Option Nat
  checksumValid : Bool
deriving Repr, DecidableEq

namespace DevTagStrip

/-- Magic bytes "DTAG". -/
def MAGIC : List Nat := [0x44, 0x54, 0x41, 0x47]

/-- Payload format version. -/
def VERSION : Nat := 1

/-- simpleHash of DevTagStrip.tsx: hash = ((hash << 5) - hash + c) | 0 per
character, then hash >>> 0. The route strings are ASCII, so character codes
are the byte codes. -/
def simpleHash (s : List Nat) : Nat :=
  jsUshr0 (s.foldl (fun h c => toInt32 (jsShl h 5 - h + (c : Int))) 0)

/-- sha normalization of buildPayload: (sha ?? "").slice(0, 7).padEnd(7, "0"). -/
def shaPadded (sha : List Nat) : List Nat :=
  sha.take 7 ++ List.replicate (7 - (sha.take 7).length) 48

/-- buildPayload of DevTagStrip.tsx. Fields are pushed in source order:
magic, version, flags, 4 route-hash bytes (big-endian), 7 sha bytes,
viewId length, viewId bytes, 4 timestamp bytes (big-endian), checksum. -/
def buildPayload (viewId : List Nat) (route : List Nat) (sha : List Nat)
    (flags : Nat) (ts : Nat) : List Nat :=
  let routeHash := simpleHash route
  let body := MAGIC ++ [VERSION, flags,
      jsByte routeHash 24, jsByte routeHash 16, jsByte routeHash 8, jsByte routeHash 0]
    ++ shaPadded sha
    ++ [viewId.length] ++ viewId
    ++ [jsByte ts 24, jsByte ts 16, jsByte ts 8, jsByte ts 0]
  body ++ [xorChecksum body]

end DevTagStrip

namespace DecodeDevTag

/-- Magic bytes "DTAG" searched by the strip decoder. -/
def MAGIC : List Nat := [0x44, 0x54, 0x41, 0x47]

/-- Rows searched from each edge of the image. -/
def STRIP_SEARCH_ROWS : Nat := 8

/-- Byte stream of one pixel row: R, G, B of each pixel in order
(extractBytesFromRow of decode-devtag). -/
def extractBytesFromRow (data : List Nat) (width rowIndex : Nat) : List Nat :=
  (List.range width).flatMap (fun x =>
    let idx := rowIndex * width * 4 + x * 4
    [data.getD idx 0, data.getD (idx + 1) 0, data.getD (idx + 2) 0])

/-- Magic test at one offset (the comparison findMagic makes at index i;
all four reads are in range when i + 3 < length, and a read past the end
compares unequal to the nonzero magic bytes either way). -/
def magicAt (bytes : List Nat) (i : Nat) : Bool :=
  bytes.getD i 0 == 0x44 && bytes.getD (i + 1) 0 == 0x54 &&
    bytes.getD (i + 2) 0 == 0x41 && bytes.getD (i + 3) 0 == 0x47

/-- findMagic: first index whose 4 bytes match MAGIC (none for the source's
-1 sentinel). The loop runs i = 0 .. bytes.length - 4. -/
def findMagic (bytes : List Nat) : Option Nat :=
  (List.range (bytes.length - 3)).find? (fun i => magicAt bytes i)

/-- parsePayload of decode-devtag: reads the fields at startIdx. Index reads
feeding arithmetic use getD 0 (JavaScript coerces undefined to 0 inside the
int32 operators); the reads stored directly or compared with === stay
Option-valued. Slices clamp at the buffer end exactly as Array.slice does. -/
def parsePayload (bytes : List Nat) (startIdx : Nat) : DecodedPayload :=
  let b : Nat → Nat := fun i => bytes.getD i 0
  let viewIdLen := b (startIdx + 17)
  let computedChecksum := xorChecksum ((bytes.drop startIdx).take (22 + viewIdLen))
  let storedChecksum := bytes[startIdx + 22 + viewIdLen]?
  { version := bytes[startIdx + 4]?
    flags := bytes[startIdx + 5]?
    routeHash := i32FromBytes (b (startIdx + 6)) (b (startIdx + 7)) (b (startIdx + 8)) (b (startIdx + 9))
    sha := stripTrailingZeroChars ((bytes.drop (startIdx + 10)).take 7)
    viewId := (bytes.drop (startIdx + 18)).take viewIdLen
    timestamp := timestampDecode (b (startIdx + 18 + viewIdLen)) (b (startIdx + 19 + viewIdLen))
      (b (startIdx + 20 + viewIdLen)) (b (startIdx + 21 + viewIdLen))
    checksum := storedChecksum
    checksumValid := storedChecksum == some computedChecksum }

/-- One row attempt of decodeFromPNG: extract the row bytes, look for magic,
parse, and keep the payload only when the checksum validates. -/
def tryRow (data : List Nat) (width row : Nat) : Option DecodedPayload :=
  match findMagic (extractBytesFromRow data width row) with
  | none => none
  | some m =>
    if (parsePayload (extractBytesFromRow data width row) m).checksumValid
    then some (parsePayload (extractBytesFromRow data width row) m) else none

/-- Row loop of decodeFromPNG: first row whose attempt succeeds wins. -/
def searchRows (data : List Nat) (width : Nat) : List Nat → Option DecodedPayload
  | [] => none
  | r :: rest =>
    match tryRow data width r with
    | some p => some p
    | none => searchRows data width rest

/-- Bottom search range: rows height - 8 .. height - 1, skipping the
negative ones (the row < 0 continue of the source). -/
def bottomRows (height : Nat) : List Nat :=
  (List.range STRIP_SEARCH_ROWS).filterMap (fun k =>
    let r : Int := (height : Int) - (STRIP_SEARCH_ROWS : Int) + (k : Int)
    if r < 0 then none else some r.toNat)

/-- Top search range: rows 0 .. 7, skipping the ones at or past height. -/
def topRows (height : Nat) : List Nat :=
  (List.range STRIP_SEARCH_ROWS).filter (fun r => r < height)

/-- decodeFromPNG of decode-devtag: search the bottom rows, then the top rows. -/
def decodeFromPNG (width height : Nat) (data : List Nat) : Option DecodedPayload :=
  searchRows data width (bottomRows height ++ topRows height)

end DecodeDevTag

/-! ## Field layout of parsePayload -/

theorem stripTrailingZeroChars_pad (sha : List Nat) (k : Nat)
    (hlast : sha.getLast? ≠ some 48) :
    stripTrailingZeroChars (sha ++ List.replicate k 48) = sha := by
  unfold stripTrailingZeroChars
  rw [List.reverse_append, List.reverse_replicate]
  rw [List.dropWhile_append]
  simp only [List.dropWhile_replicate]
  norm_num
  cases h : sha.reverse with
  | nil =>
    simp [List.reverse_eq_nil_iff.mp h]
  | cons c rest =>
    have hc : c ≠ 48 := by
      intro hc48
      apply hlast
      rw [← List.head?_reverse, h, hc48]
      rfl
    rw [List.dropWhile_cons]
    simp [hc, ← h]

theorem timestampDecode_eq (b0 b1 b2 b3 : Nat)
    (h0 : b0 < 256) (h1 : b1 < 256) (h2 : b2 < 256) (h3 : b3 < 256) :
    timestampDecode b0 b1 b2 b3 = b0 * 2 ^ 24 + b1 * 2 ^ 16 + b2 * 2 ^ 8 + b3 := by
  unfold timestampDecode i32FromBytes
  exact jsU32_of_bytes b0 b1 b2 b3 h0 h1 h2 h3

namespace DecodeDevTag

theorem parsePayload_layout
    (a0 a1 a2 a3 f0 f1 h24 h16 h8 h0 : Nat) (sp viewId : List Nat) (hsp : sp.length = 7)
    (t24 t16 t8 t0 ck : Nat) :
    parsePayload (a0 :: a1 :: a2 :: a3 :: f0 :: f1 :: h24 :: h16 :: h8 :: h0 ::
        (sp ++ viewId.length :: (viewId ++ [t24, t16, t8, t0, ck]))) 0
      = { version := some f0, flags := some f1,
          routeHash := i32FromBytes h24 h16 h8 h0,
          sha := stripTrailingZeroChars sp,
          viewId := viewId,
          timestamp := timestampDecode t24 t16 t8 t0,
          checksum := some ck,
          checksumValid := ck == xorChecksum (a0 :: a1 :: a2 :: a3 :: f0 :: f1 ::
            h24 :: h16 :: h8 :: h0 :: (sp ++ viewId.length :: (viewId ++ [t24, t16, t8, t0]))) } := by
  set bytes := a0 :: a1 :: a2 :: a3 :: f0 :: f1 :: h24 :: h16 :: h8 :: h0 ::
    (sp ++ viewId.length :: (viewId ++ [t24, t16, t8, t0, ck])) with hbytes
  have hdrop10 : bytes.drop 10 = sp ++ viewId.length :: (viewId ++ [t24, t16, t8, t0, ck]) := rfl
  have hlen : bytes.getD 17 0 = viewId.length := by
    rw [List.getD_eq_getElem?_getD]
    have h17 : bytes[(17 : Nat)]? = (bytes.drop 10)[(7 : Nat)]? := by
      rw [List.getElem?_drop]
    rw [h17, hdrop10, List.getElem?_append]
    simp [hsp]
  have hdrop18 : bytes.drop 18 = viewId ++ [t24, t16, t8, t0, ck] := by
    have h18 : bytes.drop 18 = (bytes.drop 10).drop 8 := by rw [List.drop_drop]
    rw [h18, hdrop10]
    rw [show sp ++ viewId.length :: (viewId ++ [t24, t16, t8, t0, ck])
          = (sp ++ [viewId.length]) ++ (viewId ++ [t24, t16, t8, t0, ck]) by simp]
    rw [show (8 : Nat) = (sp ++ [viewId.length]).length by simp [hsp]]
    exact List.drop_left _ _
  have hdrop18len : bytes.drop (18 + viewId.length) = [t24, t16, t8, t0, ck] := by
    rw [← List.drop_drop, hdrop18]
    exact List.drop_left _ _
  have hread : ∀ i : Nat, bytes.getD (18 + viewId.length + i) 0
      = [t24, t16, t8, t0, ck].getD i 0 := by
    intro i
    rw [List.getD_eq_getElem?_getD, List.getD_eq_getElem?_getD]
    rw [← List.getElem?_drop, hdrop18len]
  have hr0 : bytes.getD (18 + viewId.length) 0 = t24 := hread 0
  have hr1 : bytes.getD (19 + viewId.length) 0 = t16 := by
    rw [show (19 + viewId.length : Nat) = 18 + viewId.length + 1 by omega]
    exact hread 1
  have hr2 : bytes.getD (20 + viewId.length) 0 = t8 := by
    rw [show (20 + viewId.length : Nat) = 18 + viewId.length + 2 by omega]
    exact hread 2
  have hr3 : bytes.getD (21 + viewId.length) 0 = t0 := by
    rw [show (21 + viewId.length : Nat) = 18 + viewId.length + 3 by omega]
    exact hread 3
  have hstored : bytes[22 + viewId.length]? = some ck := by
    rw [show (22 + viewId.length : Nat) = 18 + viewId.length + 4 by omega]
    rw [← List.getElem?_drop, hdrop18len]
    rfl
  have hsha : (bytes.drop 10).take 7 = sp := by
    rw [hdrop10, ← hsp]
    exact List.take_left _ _
  have hview : (bytes.drop 18).take viewId.length = viewId := by
    rw [hdrop18]
    exact List.take_left _ _
  have hfront : bytes = (a0 :: a1 :: a2 :: a3 :: f0 :: f1 :: h24 :: h16 :: h8 :: h0 ::
      (sp ++ viewId.length :: (viewId ++ [t24, t16, t8, t0]))) ++ [ck] := by
    simp [hbytes]
  have hfrontlen : (a0 :: a1 :: a2 :: a3 :: f0 :: f1 :: h24 :: h16 :: h8 :: h0 ::
      (sp ++ viewId.length :: (viewId ++ [t24, t16, t8, t0]))).length = 22 + viewId.length := by
    simp [hsp]
    omega
  have hcomputed : bytes.take (22 + viewId.length)
      = a0 :: a1 :: a2 :: a3 :: f0 :: f1 :: h24 :: h16 :: h8 :: h0 ::
        (sp ++ viewId.length :: (viewId ++ [t24, t16, t8, t0])) := by
    rw [hfront, ← hfrontlen]
    exact List.take_left _ _
  unfold parsePayload
  simp only [Nat.zero_add, List.drop_zero]
  simp only [hlen, hr0, hr1, hr2, hr3, hstored, hsha, hview, hcomputed]
  have hv4 : bytes[(4 : Nat)]? = some f0 := rfl
  have hv5 : bytes[(5 : Nat)]? = some f1 := rfl
  have hg6 : bytes.getD 6 0 = h24 := rfl
  have hg7 : bytes.getD 7 0 = h16 := rfl
  have hg8 : bytes.getD 8 0 = h8 := rfl
  have hg9 : bytes.getD 9 0 = h0 := rfl
  simp only [hv4, hv5, hg6, hg7, hg8, hg9]
  simp

theorem buildPayload_shape (viewId route sha : List Nat) (flags ts : Nat)
    (hsha : sha.length ≤ 7) :
    DevTagStrip.buildPayload viewId route sha flags ts
      = 0x44 :: 0x54 :: 0x41 :: 0x47 :: DevTagStrip.VERSION :: flags ::
          jsByte (DevTagStrip.simpleHash route) 24 :: jsByte (DevTagStrip.simpleHash route) 16 ::
          jsByte (DevTagStrip.simpleHash route) 8 :: jsByte (DevTagStrip.simpleHash route) 0 ::
          ((sha ++ List.replicate (7 - sha.length) 48) ++ viewId.length ::
            (viewId ++ [jsByte ts 24, jsByte ts 16, jsByte ts 8, jsByte ts 0,
              xorChecksum (0x44 :: 0x54 :: 0x41 :: 0x47 :: DevTagStrip.VERSION :: flags ::
                jsByte (DevTagStrip.simpleHash route) 24 :: jsByte (DevTagStrip.simpleHash route) 16 ::
                jsByte (DevTagStrip.simpleHash route) 8 :: jsByte (DevTagStrip.simpleHash route) 0 ::
                ((sha ++ List.replicate (7 - sha.length) 48) ++ viewId.length ::
                  (viewId ++ [jsByte ts 24, jsByte ts 16, jsByte ts 8, jsByte ts 0])))])) := by
  have hpad : DevTagStrip.shaPadded sha = sha ++ List.replicate (7 - sha.length) 48 := by
    unfold DevTagStrip.shaPadded
    rw [List.take_of_length_le hsha]
  unfold DevTagStrip.buildPayload
  rw [hpad]
  simp [DevTagStrip.MAGIC]

/-- C1. Amended round trip of the exact scheme. For every valid field
combination (viewId of at most 255 UTF-8 bytes, sha of at most 7 ASCII
characters whose last character is not the pad character "0", flags fitting
one byte, timestamp an unsigned 32-bit integer), parsing the byte sequence
produced by buildPayload at the magic offset 0 returns the same version,
flags, sha, viewId and timestamp, and reports a valid checksum. The sha
condition is forced: the encoder pads with the ASCII character "0" and the
decoder strips every trailing "0", so a sha that itself ends in "0" loses
that character (see the counterexample theorem). -/
theorem c1_exact_roundtrip (viewId route sha : List Nat) (flags ts : Nat)
    (hview : viewId.length ≤ 255) (hsha : sha.length ≤ 7)
    (hascii : ∀ c ∈ sha, c < 128) (hlast : sha.getLast? ≠ some 48)
    (hflags : flags < 256) (hts : ts < 2 ^ 32) :
    (DecodeDevTag.parsePayload (DevTagStrip.buildPayload viewId route sha flags ts) 0).version
        = some DevTagStrip.VERSION ∧
    (DecodeDevTag.parsePayload (DevTagStrip.buildPayload viewId route sha flags ts) 0).flags
        = some flags ∧
    (DecodeDevTag.parsePayload (DevTagStrip.buildPayload viewId route sha flags ts) 0).sha = sha ∧
    (DecodeDevTag.parsePayload (DevTagStrip.buildPayload viewId route sha flags ts) 0).viewId
        = viewId ∧
    (DecodeDevTag.parsePayload (DevTagStrip.buildPayload viewId route sha flags ts) 0).timestamp
        = ts ∧
    (DecodeDevTag.parsePayload (DevTagStrip.buildPayload viewId route sha flags ts) 0).checksumValid
        = true := by
  have hsplen : (sha ++ List.replicate (7 - sha.length) 48).length = 7 := by
    simp
    omega
  rw [buildPayload_shape viewId route sha flags ts hsha]
  rw [DecodeDevTag.parsePayload_layout _ _ _ _ _ _ _ _ _ _ _ viewId hsplen]
  refine ⟨rfl, rfl, ?_, rfl, ?_, ?_⟩
  · exact stripTrailingZeroChars_pad sha _ hlast
  · have hts32 : ts < pow32 := by rw [pow32_eq]; exact hts
    dsimp only
    rw [jsByte_24 ts hts32, jsByte_16 ts hts32, jsByte_8 ts hts32, jsByte_0 ts]
    rw [timestampDecode_eq _ _ _ _ (by omega) (by omega) (by omega) (by omega)]
    omega
  · simp

/-- C1. Counterexample to the round trip as stated: with the valid field
combination viewId = "B", route = "", sha = "a0" (two ASCII characters,
within the 7-character bound), flags = 0, timestamp = 0, the decoder
returns sha = "a": the trailing "0" of the sha itself is stripped together
with the padding, so decode(encode(fields)) differs from fields. -/
theorem c1_exact_roundtrip_cex :
    (DecodeDevTag.parsePayload (DevTagStrip.buildPayload [66] [] [97, 48] 0 0) 0).sha
      = [97] ∧ [97] ≠ [97, 48] := by
  constructor
  · decide
  · decide

theorem c1_exact_roundtrip_witness :
    (DecodeDevTag.parsePayload (DevTagStrip.buildPayload [66, 73] [47, 97] [97, 98, 99] 3 4000000000) 0).version
        = some DevTagStrip.VERSION ∧
    (DecodeDevTag.parsePayload (DevTagStrip.buildPayload [66, 73] [47, 97] [97, 98, 99] 3 4000000000) 0).flags
        = some 3 ∧
    (DecodeDevTag.parsePayload (DevTagStrip.buildPayload [66, 73] [47, 97] [97, 98, 99] 3 4000000000) 0).sha
        = [97, 98, 99] ∧
    (DecodeDevTag.parsePayload (DevTagStrip.buildPayload [66, 73] [47, 97] [97, 98, 99] 3 4000000000) 0).viewId
        = [66, 73] ∧
    (DecodeDevTag.parsePayload (DevTagStrip.buildPayload [66, 73] [47, 97] [97, 98, 99] 3 4000000000) 0).timestamp
        = 4000000000 ∧
    (DecodeDevTag.parsePayload (DevTagStrip.buildPayload [66, 73] [47, 97] [97, 98, 99] 3 4000000000) 0).checksumValid
        = true :=
  c1_exact_roundtrip [66, 73] [47, 97] [97, 98, 99] 3 4000000000
    (by decide) (by decide) (by decide) (by decide) (by decide) (by decide)

end DecodeDevTag

/-- C5. The 4-byte big-endian timestamp field decodes to the unsigned value
b0*2^24 + b1*2^16 + b2*2^8 + b3, a value below 2^32, for every byte
combination including a set top bit of b0, although the inner shifts and
ors of timestampDecode are signed 32-bit operations; parsePayload's
timestamp field is exactly this decode applied to the four bytes after the
viewId. -/
theorem c5_timestamp_decode_unsigned (b0 b1 b2 b3 : Nat)
    (h0 : b0 < 256) (h1 : b1 < 256) (h2 : b2 < 256) (h3 : b3 < 256) :
    timestampDecode b0 b1 b2 b3 = b0 * 2 ^ 24 + b1 * 2 ^ 16 + b2 * 2 ^ 8 + b3 ∧
    timestampDecode b0 b1 b2 b3 < 2 ^ 32 ∧
    (∀ (bytes : List Nat) (s : Nat),
      (DecodeDevTag.parsePayload bytes s).timestamp
        = timestampDecode (bytes.getD (s + 18 + bytes.getD (s + 17) 0) 0)
            (bytes.getD (s + 19 + bytes.getD (s + 17) 0) 0)
            (bytes.getD (s + 20 + bytes.getD (s + 17) 0) 0)
            (bytes.getD (s + 21 + bytes.getD (s + 17) 0) 0)) := by
  refine ⟨timestampDecode_eq b0 b1 b2 b3 h0 h1 h2 h3, ?_, fun bytes s => rfl⟩
  rw [timestampDecode_eq b0 b1 b2 b3 h0 h1 h2 h3]
  norm_num
  omega

theorem c5_timestamp_decode_unsigned_witness :
    timestampDecode 255 0 0 1 = 255 * 2 ^ 24 + 0 * 2 ^ 16 + 0 * 2 ^ 8 + 1 ∧
    timestampDecode 255 0 0 1 < 2 ^ 32 ∧
    (∀ (bytes : List Nat) (s : Nat),
      (DecodeDevTag.parsePayload bytes s).timestamp
        = timestampDecode (bytes.getD (s + 18 + bytes.getD (s + 17) 0) 0)
            (bytes.getD (s + 19 + bytes.getD (s + 17) 0) 0)
            (bytes.getD (s + 20 + bytes.getD (s + 17) 0) 0)
            (bytes.getD (s + 21 + bytes.getD (s + 17) 0) 0)) :=
  c5_timestamp_decode_unsigned 255 0 0 1 (by decide) (by decide) (by decide) (by decide)

set_option maxRecDepth 10000 in
/-- C4. The routeHash bug at the failing input route = "/settings"
(character codes below), whose unsigned hash 2383617362 has the top bit
set. The encoder writes the unsigned 32-bit hash, but parsePayload
recombines the four bytes with signed int32 ops and never applies the
unsigned correction it applies to the timestamp, so the decoded routeHash
is the negative value 2383617362 - 2^32 = -1911349934, not the hash in
[0, 2^32) that the claim and the spec describe. -/
theorem c4_routehash_signed_bug :
    DevTagStrip.simpleHash [47, 115, 101, 116, 116, 105, 110, 103, 115] = 2383617362 ∧
    2 ^ 31 ≤ DevTagStrip.simpleHash [47, 115, 101, 116, 116, 105, 110, 103, 115] ∧
    (DecodeDevTag.parsePayload
        (DevTagStrip.buildPayload [66] [47, 115, 101, 116, 116, 105, 110, 103, 115] [] 0 0)
        0).routeHash = 2383617362 - 2 ^ 32 ∧
    (DecodeDevTag.parsePayload
        (DevTagStrip.buildPayload [66] [47, 115, 101, 116, 116, 105, 110, 103, 115] [] 0 0)
        0).routeHash < 0 := by
  refine ⟨by decide, by decide, by decide, by decide⟩

/-! ## Shadow decoder (decode-shadow, alpha LSB channel) -/

namespace DecodeShadow

/-- Payload bit budget of the shadow scan. -/
def maxPayloadBits : Nat := 512

/-- Alpha-channel LSBs of one row, at most numBits of them
(extractBitsFromRow of decode-shadow). -/
def extractBitsFromRow (data : List Nat) (width row numBits : Nat) : List Nat :=
  ((List.range width).map (fun x => data.getD ((row * width + x) * 4 + 3) 0 &&& 1)).take numBits

/-- bitsToBytes: every complete group of 8 bits becomes one byte, MSB first
(byte = (byte << 1) | bit; the operands stay below 256, where the
JavaScript operators agree with the Nat ones). -/
def bitsToBytes (bits : List Nat) : List Nat :=
  (List.range (bits.length / 8)).map (fun k =>
    (List.range 8).foldl (fun byte j => (byte <<< 1) ||| bits.getD (8 * k + j) 0) 0)

/-- hasMagic: the stream is at least 4 bytes and starts with "DTAG". -/
def hasMagic (bytes : List Nat) : Bool :=
  decide (4 ≤ bytes.length) && bytes.getD 0 0 == 0x44 && bytes.getD 1 0 == 0x54 &&
    bytes.getD 2 0 == 0x41 && bytes.getD 3 0 == 0x47

/-- parsePayload of decode-shadow: a magic check, then field reads that are
byte for byte the reads of decode-devtag's parsePayload at offset 0. -/
def parsePayload (bytes : List Nat) : Option DecodedPayload :=
  if hasMagic bytes then some (DecodeDevTag.parsePayload bytes 0) else none

/-- One row attempt of the shadow decodeFromPNG. -/
def tryRow (data : List Nat) (width row : Nat) : Option DecodedPayload :=
  if hasMagic (bitsToBytes (extractBitsFromRow data width row maxPayloadBits)) then
    match parsePayload (bitsToBytes (extractBitsFromRow data width row maxPayloadBits)) with
    | some p => if p.checksumValid then some p else none
    | none => none
  else none

/-- Row loop of the shadow decodeFromPNG. -/
def searchRows (data : List Nat) (width : Nat) : List Nat → Option DecodedPayload
  | [] => none
  | r :: rest =>
    match tryRow data width r with
    | some p => some p
    | none => searchRows data width rest

/-- decodeFromPNG of decode-shadow: scan every row from the top. -/
def decodeFromPNG (width height : Nat) (data : List Nat) : Option DecodedPayload :=
  searchRows data width (List.range height)

end DecodeShadow

/-! ## C3 and C6: checksum gating and malformed rows -/

theorem DecodeDevTag.searchRows_checksum (data : List Nat) (width : Nat) :
    ∀ (rows : List Nat) (p : DecodedPayload),
      DecodeDevTag.searchRows data width rows = some p → p.checksumValid = true := by
  intro rows
  induction rows with
  | nil => intro p h; simp [DecodeDevTag.searchRows] at h
  | cons r rest ih =>
    intro p h
    rw [DecodeDevTag.searchRows] at h
    rcases htr : DecodeDevTag.tryRow data width r with _ | q
    · rw [htr] at h
      exact ih p h
    · rw [htr] at h
      have hq : q = p := by cases h; rfl
      subst hq
      unfold DecodeDevTag.tryRow at htr
      split at htr
      · cases htr
      · split at htr
        · rename_i hvalid
          cases htr
          exact hvalid
        · cases htr

theorem DecodeShadow.shadowSearchRows_checksum (data : List Nat) (width : Nat) :
    ∀ (rows : List Nat) (p : DecodedPayload),
      DecodeShadow.searchRows data width rows = some p → p.checksumValid = true := by
  intro rows
  induction rows with
  | nil => intro p h; simp [DecodeShadow.searchRows] at h
  | cons r rest ih =>
    intro p h
    rw [DecodeShadow.searchRows] at h
    rcases htr : DecodeShadow.tryRow data width r with _ | q
    · rw [htr] at h
      exact ih p h
    · rw [htr] at h
      have hq : q = p := by cases h; rfl
      subst hq
      unfold DecodeShadow.tryRow at htr
      split at htr
      · split at htr
        · split at htr
          · rename_i hvalid
            cases htr
            exact hvalid
          · cases htr
        · cases htr
      · cases htr

/-- C3. A decode never returns a payload that failed the checksum: both
exact-scheme decoders (the strip decoder of decode-devtag and the alpha-LSB
shadow decoder of decode-shadow) either return a payload with
checksumValid = true or return none after the row search is exhausted; and
a row whose candidate payload fails the checksum leaves the search result
exactly what the remaining rows give, so the scan continues with the next
row rather than aborting. -/
theorem c3_decode_checksum_gate :
    (∀ (width height : Nat) (data : List Nat) (p : DecodedPayload),
       DecodeDevTag.decodeFromPNG width height data = some p → p.checksumValid = true) ∧
    (∀ (width height : Nat) (data : List Nat) (p : DecodedPayload),
       DecodeShadow.decodeFromPNG width height data = some p → p.checksumValid = true) ∧
    (∀ (data : List Nat) (width row : Nat) (rest : List Nat) (m : Nat),
       DecodeDevTag.findMagic (DecodeDevTag.extractBytesFromRow data width row) = some m →
       (DecodeDevTag.parsePayload (DecodeDevTag.extractBytesFromRow data width row)
           m).checksumValid = false →
       DecodeDevTag.searchRows data width (row :: rest)
         = DecodeDevTag.searchRows data width rest) := by
  refine ⟨?_, ?_, ?_⟩
  · intro width height data p h
    exact DecodeDevTag.searchRows_checksum data width _ p h
  · intro width height data p h
    exact DecodeShadow.shadowSearchRows_checksum data width _ p h
  · intro data width row rest m hm hfail
    rw [DecodeDevTag.searchRows]
    have htr : DecodeDevTag.tryRow data width row = none := by
      unfold DecodeDevTag.tryRow
      rw [hm]
      simp [hfail]
    rw [htr]

/-- Witness image for the strip decoder: the encoded payload for
viewId = "", route = "", sha = "", flags = 0, timestamp = 0 laid out three
bytes per pixel in row 0 of an 8 x 1 image. -/
def c3StripImage : List Nat :=
  (List.range 8).flatMap (fun x =>
    [(DevTagStrip.buildPayload [] [] [] 0 0).getD (3 * x) 0,
     (DevTagStrip.buildPayload [] [] [] 0 0).getD (3 * x + 1) 0,
     (DevTagStrip.buildPayload [] [] [] 0 0).getD (3 * x + 2) 0, 255])

/-- Witness image for the shadow decoder: the same payload bit by bit in
the alpha LSBs of row 0 of a 184 x 1 image. -/
def c3ShadowImage : List Nat :=
  (List.range 184).flatMap (fun x =>
    [0, 0, 0, ((DevTagStrip.buildPayload [] [] [] 0 0).flatMap (fun byte =>
      (List.range 8).map (fun k => byte >>> (7 - k) &&& 1))).getD x 0])

/-- Malformed row bytes: valid magic, then a viewId length (200) that runs
past the end of the 18 available bytes. -/
def c6Bytes : List Nat := [68, 84, 65, 71, 1, 0, 0, 0, 0, 0, 48, 48, 48, 48, 48, 48, 48, 200]

/-- Pixel row carrying c6Bytes in its RGB channels (width 6). -/
def c6Image : List Nat :=
  [68, 84, 65, 255, 71, 1, 0, 255, 0, 0, 0, 255, 0, 48, 48, 255, 48, 48, 48, 255, 48, 48, 200, 255]

set_option maxRecDepth 40000 in
theorem c3_decode_checksum_gate_witness :
    (DecodeDevTag.parsePayload (DecodeDevTag.extractBytesFromRow c3StripImage 8 0) 0).checksumValid
        = true ∧
    (DecodeDevTag.parsePayload (DecodeShadow.bitsToBytes
        (DecodeShadow.extractBitsFromRow c3ShadowImage 184 0 DecodeShadow.maxPayloadBits))
        0).checksumValid = true ∧
    DecodeDevTag.searchRows c6Image 6 (0 :: [1]) = DecodeDevTag.searchRows c6Image 6 [1] :=
  ⟨c3_decode_checksum_gate.1 8 1 c3StripImage
      (DecodeDevTag.parsePayload (DecodeDevTag.extractBytesFromRow c3StripImage 8 0) 0)
      (by decide),
   c3_decode_checksum_gate.2.1 184 1 c3ShadowImage
      (DecodeDevTag.parsePayload (DecodeShadow.bitsToBytes
        (DecodeShadow.extractBitsFromRow c3ShadowImage 184 0 DecodeShadow.maxPayloadBits)) 0)
      (by decide),
   c3_decode_checksum_gate.2.2 c6Image 6 0 [1] 0 (by decide) (by decide)⟩

/-- C6. A magic-bearing byte sequence whose viewId length prefix runs past
the end of the available bytes parses without any out-of-bounds fault:
parsePayload returns a record whose checksumValid is false (the stored
checksum read is past the buffer, and undefined never strict-equals a
number), and a row that decodes to such a sequence leaves the row scan to
continue with the remaining rows. -/
theorem c6_length_overrun_recoverable (bytes : List Nat) (startIdx : Nat)
    (hmagic : DecodeDevTag.magicAt bytes startIdx = true)
    (hlenread : startIdx + 18 ≤ bytes.length)
    (hoverrun : bytes.length < startIdx + 18 + bytes.getD (startIdx + 17) 0) :
    (DecodeDevTag.parsePayload bytes startIdx).checksumValid = false ∧
    (∀ (data : List Nat) (width row : Nat) (rest : List Nat),
       DecodeDevTag.extractBytesFromRow data width row = bytes →
       DecodeDevTag.findMagic bytes = some startIdx →
       DecodeDevTag.searchRows data width (row :: rest)
         = DecodeDevTag.searchRows data width rest) := by
  have hvalid : (DecodeDevTag.parsePayload bytes startIdx).checksumValid = false := by
    unfold DecodeDevTag.parsePayload
    dsimp only
    rw [List.getElem?_eq_none (by omega)]
    rfl
  refine ⟨hvalid, ?_⟩
  intro data width row rest hext hfind
  rw [DecodeDevTag.searchRows]
  have htr : DecodeDevTag.tryRow data width row = none := by
    unfold DecodeDevTag.tryRow
    rw [hext, hfind]
    simp [hvalid]
  rw [htr]

theorem c6_length_overrun_recoverable_witness :
    (DecodeDevTag.parsePayload c6Bytes 0).checksumValid = false ∧
    (∀ (data : List Nat) (width row : Nat) (rest : List Nat),
       DecodeDevTag.extractBytesFromRow data width row = c6Bytes →
       DecodeDevTag.findMagic c6Bytes = some 0 →
       DecodeDevTag.searchRows data width (row :: rest)
         = DecodeDevTag.searchRows data width rest) :=
  c6_length_overrun_recoverable c6Bytes 0 (by decide) (by decide) (by decide)

/-! ## Hierarchical shadow LSB embedding (renderShadowWithHierarchy) -/

namespace DevTagStrip

/-- Bit expansion of the payload, most significant bit of each byte first
(the for i = 7 .. 0 loop of renderShadowWithHierarchy). -/
def bitsOfPayload (payload : List Nat) : List Nat :=
  payload.flatMap (fun byte => (List.range 8).map (fun k => byte >>> (7 - k) &&& 1))

/-- One channel write pixels[idx] = (pixels[idx] & 0xFE) | bit. A write past
the end of the buffer is discarded, as on a typed array. -/
def lsbWrite (pixels : List Nat) (idx b : Nat) : List Nat :=
  pixels.set idx ((pixels.getD idx 0 &&& 0xFE) ||| b)

/-- One guarded channel write: if (bitIndex < bits.length)
pixels[idx] = (pixels[idx] & 0xFE) | bits[bitIndex++]. -/
def writeStep (st : List Nat × Nat) (idx : Nat) (bits : List Nat) : List Nat × Nat :=
  if st.2 < bits.length then (lsbWrite st.1 idx (bits.getD st.2 0), st.2 + 1) else st

/-- The three guarded channel writes of one loop iteration: R, G and B of
the pixel at byte offset idx each take the next bit while bits remain. -/
def embedPixel (pixels : List Nat) (idx : Nat) (bits : List Nat) (i : Nat) : List Nat × Nat :=
  writeStep (writeStep (writeStep (pixels, i) idx bits) (idx + 1) bits) (idx + 2) bits

/-- Fold of embedPixel over the x positions of a row. -/
def embedLoop (bits : List Nat) (width row : Nat) (xs : List Nat) (st : List Nat × Nat) :
    List Nat × Nat :=
  xs.foldl (fun st x => embedPixel st.1 ((row * width + x) * 4) bits st.2) st

/-- One row write pass: x = 0 .. width - 1 with the bit index starting at 0
(the loop guard bitIndex < bits.length makes the remaining iterations
no-ops, which the unguarded fold reproduces). -/
def embedRow (pixels : List Nat) (width row : Nat) (bits : List Nat) : List Nat :=
  (embedLoop bits width row (List.range width) (pixels, 0)).1

/-- LSB-embedding step of renderShadowWithHierarchy: write the bits into
row 0, then repeat them in the middle row and the last row. -/
def embedHierarchyBits (pixels : List Nat) (width height : Nat) (bits : List Nat) : List Nat :=
  embedRow (embedRow (embedRow pixels width 0 bits) width (height / 2) bits) width (height - 1) bits

set_option maxRecDepth 10000 in
theorem lsb_write_val :
    ∀ v < 256, ∀ b < 2, ((v &&& 254) ||| b) / 2 = v / 2 ∧ ((v &&& 254) ||| b) < 256 := by
  decide

theorem lsbWrite_length (p : List Nat) (idx b : Nat) : (lsbWrite p idx b).length = p.length :=
  List.length_set p idx _

theorem lsbWrite_getD_ne (p : List Nat) (idx b j : Nat) (h : j ≠ idx) :
    (lsbWrite p idx b).getD j 0 = p.getD j 0 := by
  unfold lsbWrite
  simp only [List.getD_eq_getElem?_getD]
  rw [List.getElem?_set_ne (fun he => h he.symm)]

theorem lsbWrite_mem_lt (p : List Nat) (idx b : Nat)
    (hp : ∀ v ∈ p, v < 256) (hb : b < 2) :
    ∀ v ∈ lsbWrite p idx b, v < 256 := by
  intro v hv
  rcases List.mem_or_eq_of_mem_set hv with h | h
  · exact hp v h
  · subst h
    by_cases hidx : idx < p.length
    · have hmem : p.getD idx 0 ∈ p := by
        rw [List.getD_eq_getElem?_getD, List.getElem?_eq_getElem hidx]
        exact List.getElem_mem hidx
      exact (lsb_write_val _ (hp _ hmem) b hb).2
    · have : p.getD idx 0 = 0 := by
        rw [List.getD_eq_getElem?_getD, List.getElem?_eq_none (by omega)]
        rfl
      rw [this]
      exact (lsb_write_val 0 (by omega) b hb).2

theorem lsbWrite_getD_div2 (p : List Nat) (idx b j : Nat)
    (hp : ∀ v ∈ p, v < 256) (hb : b < 2) :
    (lsbWrite p idx b).getD j 0 / 2 = p.getD j 0 / 2 := by
  by_cases h : j = idx
  · subst h
    by_cases hj : j < p.length
    · have hmem : p.getD j 0 ∈ p := by
        rw [List.getD_eq_getElem?_getD, List.getElem?_eq_getElem hj]
        exact List.getElem_mem hj
      have hval : (lsbWrite p j b).getD j 0 = (p.getD j 0 &&& 254) ||| b := by
        unfold lsbWrite
        simp only [List.getD_eq_getElem?_getD, List.getElem?_set]
        simp [hj]
      rw [hval]
      exact (lsb_write_val _ (hp _ hmem) b hb).1
    · have hset : lsbWrite p j b = p := by
        unfold lsbWrite
        exact List.set_eq_of_length_le (by omega)
      rw [hset]
  · rw [lsbWrite_getD_ne p idx b j h]

theorem bits_getD_lt (bits : List Nat) (hbits : ∀ v ∈ bits, v < 2) (n : Nat) :
    bits.getD n 0 < 2 := by
  by_cases h : n < bits.length
  · have hmem : bits.getD n 0 ∈ bits := by
      rw [List.getD_eq_getElem?_getD, List.getElem?_eq_getElem h]
      exact List.getElem_mem h
    exact hbits _ hmem
  · rw [List.getD_eq_getElem?_getD, List.getElem?_eq_none (by omega)]
    simp

theorem writeStep_spec (st : List Nat × Nat) (idx : Nat) (bits : List Nat)
    (hbits : ∀ v ∈ bits, v < 2) (hp : ∀ v ∈ st.1, v < 256) :
    (writeStep st idx bits).1.length = st.1.length ∧
    (∀ v ∈ (writeStep st idx bits).1, v < 256) ∧
    (∀ j, (writeStep st idx bits).1.getD j 0 / 2 = st.1.getD j 0 / 2) ∧
    (∀ j, j ≠ idx → (writeStep st idx bits).1.getD j 0 = st.1.getD j 0) := by
  unfold writeStep
  split
  · have hb : bits.getD st.2 0 < 2 := bits_getD_lt bits hbits st.2
    exact ⟨lsbWrite_length st.1 idx _, lsbWrite_mem_lt st.1 idx _ hp hb,
      fun j => lsbWrite_getD_div2 st.1 idx _ j hp hb,
      fun j hj => lsbWrite_getD_ne st.1 idx _ j hj⟩
  · exact ⟨rfl, hp, fun j => rfl, fun j hj => rfl⟩

theorem embedPixel_spec (p : List Nat) (idx : Nat) (bits : List Nat) (i : Nat)
    (hbits : ∀ v ∈ bits, v < 2) (hp : ∀ v ∈ p, v < 256) :
    (embedPixel p idx bits i).1.length = p.length ∧
    (∀ v ∈ (embedPixel p idx bits i).1, v < 256) ∧
    (∀ j, (embedPixel p idx bits i).1.getD j 0 / 2 = p.getD j 0 / 2) ∧
    (∀ j, j ≠ idx → j ≠ idx + 1 → j ≠ idx + 2 →
      (embedPixel p idx bits i).1.getD j 0 = p.getD j 0) := by
  have h1 := writeStep_spec (p, i) idx bits hbits hp
  have h2 := writeStep_spec (writeStep (p, i) idx bits) (idx + 1) bits hbits h1.2.1
  have h3 := writeStep_spec (writeStep (writeStep (p, i) idx bits) (idx + 1) bits)
    (idx + 2) bits hbits h2.2.1
  unfold embedPixel
  refine ⟨?_, h3.2.1, ?_, ?_⟩
  · rw [h3.1, h2.1, h1.1]
  · intro j
    rw [h3.2.2.1 j, h2.2.2.1 j, h1.2.2.1 j]
  · intro j hj0 hj1 hj2
    rw [h3.2.2.2 j hj2, h2.2.2.2 j hj1, h1.2.2.2 j hj0]

theorem embedLoop_spec (bits : List Nat) (hbits : ∀ v ∈ bits, v < 2) (width row : Nat) :
    ∀ (xs : List Nat) (st : List Nat × Nat), (∀ x ∈ xs, x < width) → (∀ v ∈ st.1, v < 256) →
    (embedLoop bits width row xs st).1.length = st.1.length ∧
    (∀ v ∈ (embedLoop bits width row xs st).1, v < 256) ∧
    (∀ j, (embedLoop bits width row xs st).1.getD j 0 / 2 = st.1.getD j 0 / 2) ∧
    (∀ j, j % 4 = 3 → (embedLoop bits width row xs st).1.getD j 0 = st.1.getD j 0) ∧
    (∀ j, j / 4 / width ≠ row → (embedLoop bits width row xs st).1.getD j 0 = st.1.getD j 0) := by
  intro xs
  induction xs with
  | nil =>
    intro st hxs hp
    exact ⟨rfl, hp, fun j => rfl, fun j hj => rfl, fun j hj => rfl⟩
  | cons x xs ih =>
    intro st hxs hp
    have hx : x < width := hxs x (List.mem_cons_self x xs)
    have hxs' : ∀ y ∈ xs, y < width := fun y hy => hxs y (List.mem_cons_of_mem x hy)
    have hpix := embedPixel_spec st.1 ((row * width + x) * 4) bits st.2 hbits hp
    have hstep : embedLoop bits width row (x :: xs) st
        = embedLoop bits width row xs (embedPixel st.1 ((row * width + x) * 4) bits st.2) := by
      simp [embedLoop]
    have ihs := ih (embedPixel st.1 ((row * width + x) * 4) bits st.2) hxs' hpix.2.1
    rw [hstep]
    have hne : ∀ j, j / 4 / width ≠ row →
        j ≠ (row * width + x) * 4 ∧ j ≠ (row * width + x) * 4 + 1 ∧
        j ≠ (row * width + x) * 4 + 2 := by
      intro j hj
      have hdivrow : (row * width + x) / width = row := by
        rw [Nat.mul_comm row width, Nat.mul_add_div (by omega)]
        simp [Nat.div_eq_of_lt hx]
      refine ⟨?_, ?_, ?_⟩ <;> intro he <;> apply hj
      · have : j / 4 = row * width + x := by omega
        rw [this, hdivrow]
      · have : j / 4 = row * width + x := by omega
        rw [this, hdivrow]
      · have : j / 4 = row * width + x := by omega
        rw [this, hdivrow]
    refine ⟨?_, ihs.2.1, ?_, ?_, ?_⟩
    · rw [ihs.1, hpix.1]
    · intro j
      rw [ihs.2.2.1 j, hpix.2.2.1 j]
    · intro j hj
      have hmod : j ≠ (row * width + x) * 4 ∧ j ≠ (row * width + x) * 4 + 1 ∧
          j ≠ (row * width + x) * 4 + 2 := by
        refine ⟨?_, ?_, ?_⟩ <;> omega
      rw [ihs.2.2.2.1 j hj, hpix.2.2.2 j hmod.1 hmod.2.1 hmod.2.2]
    · intro j hj
      have h3 := hne j hj
      rw [ihs.2.2.2.2 j hj, hpix.2.2.2 j h3.1 h3.2.1 h3.2.2]

theorem embedRow_spec (pixels : List Nat) (width row : Nat) (bits : List Nat)
    (hbits : ∀ v ∈ bits, v < 2) (hp : ∀ v ∈ pixels, v < 256) :
    (embedRow pixels width row bits).length = pixels.length ∧
    (∀ v ∈ embedRow pixels width row bits, v < 256) ∧
    (∀ j, (embedRow pixels width row bits).getD j 0 / 2 = pixels.getD j 0 / 2) ∧
    (∀ j, j % 4 = 3 → (embedRow pixels width row bits).getD j 0 = pixels.getD j 0) ∧
    (∀ j, j / 4 / width ≠ row → (embedRow pixels width row bits).getD j 0 = pixels.getD j 0) :=
  embedLoop_spec bits hbits width row (List.range width) (pixels, 0)
    (fun x hx => List.mem_range.mp hx) hp

theorem bitsOfPayload_lt (payload : List Nat) : ∀ v ∈ bitsOfPayload payload, v < 2 := by
  intro v hv
  unfold bitsOfPayload at hv
  simp only [List.mem_flatMap, List.mem_map, List.mem_range] at hv
  obtain ⟨byte, hbyte, k, hk, hval⟩ := hv
  have : byte >>> (7 - k) &&& 1 ≤ 1 := Nat.and_le_right
  omega

end DevTagStrip

/-- C7. The LSB-embedding step of renderShadowWithHierarchy changes only
the least significant bit of the R, G and B channels of pixels in row 0,
the middle row and the last row: for every canvas pixel buffer (byte
values) and every hierarchical payload, the upper 7 bits of every channel,
every alpha channel value, and every pixel in any other row keep the
values they had before the embedding (and the buffer keeps its length and
byte range). -/
theorem c7_lsb_embed_frame (pixels : List Nat) (width height : Nat) (payload : List Nat)
    (hp : ∀ v ∈ pixels, v < 256) :
    (DevTagStrip.embedHierarchyBits pixels width height
        (DevTagStrip.bitsOfPayload payload)).length = pixels.length ∧
    (∀ j, (DevTagStrip.embedHierarchyBits pixels width height
        (DevTagStrip.bitsOfPayload payload)).getD j 0 / 2 = pixels.getD j 0 / 2) ∧
    (∀ j, j % 4 = 3 → (DevTagStrip.embedHierarchyBits pixels width height
        (DevTagStrip.bitsOfPayload payload)).getD j 0 = pixels.getD j 0) ∧
    (∀ j, j / 4 / width ≠ 0 → j / 4 / width ≠ height / 2 → j / 4 / width ≠ height - 1 →
      (DevTagStrip.embedHierarchyBits pixels width height
        (DevTagStrip.bitsOfPayload payload)).getD j 0 = pixels.getD j 0) ∧
    (∀ v ∈ DevTagStrip.embedHierarchyBits pixels width height
        (DevTagStrip.bitsOfPayload payload), v < 256) := by
  have hbits := DevTagStrip.bitsOfPayload_lt payload
  have h0 := DevTagStrip.embedRow_spec pixels width 0 (DevTagStrip.bitsOfPayload payload)
    hbits hp
  have h1 := DevTagStrip.embedRow_spec _ width (height / 2) (DevTagStrip.bitsOfPayload payload)
    hbits h0.2.1
  have h2 := DevTagStrip.embedRow_spec _ width (height - 1) (DevTagStrip.bitsOfPayload payload)
    hbits h1.2.1
  unfold DevTagStrip.embedHierarchyBits
  refine ⟨?_, ?_, ?_, ?_, h2.2.1⟩
  · rw [h2.1, h1.1, h0.1]
  · intro j
    rw [h2.2.2.1 j, h1.2.2.1 j, h0.2.2.1 j]
  · intro j hj
    rw [h2.2.2.2.1 j hj, h1.2.2.2.1 j hj, h0.2.2.2.1 j hj]
  · intro j hj0 hjm hjl
    rw [h2.2.2.2.2 j hjl, h1.2.2.2.2 j hjm, h0.2.2.2.2 j hj0]

theorem c7_lsb_embed_frame_witness :
    (DevTagStrip.embedHierarchyBits [7, 8, 9, 250, 10, 11, 12, 13] 1 2
        (DevTagStrip.bitsOfPayload [255])).length = ([7, 8, 9, 250, 10, 11, 12, 13] : List Nat).length ∧
    (∀ j, (DevTagStrip.embedHierarchyBits [7, 8, 9, 250, 10, 11, 12, 13] 1 2
        (DevTagStrip.bitsOfPayload [255])).getD j 0 / 2
      = ([7, 8, 9, 250, 10, 11, 12, 13] : List Nat).getD j 0 / 2) ∧
    (∀ j, j % 4 = 3 → (DevTagStrip.embedHierarchyBits [7, 8, 9, 250, 10, 11, 12, 13] 1 2
        (DevTagStrip.bitsOfPayload [255])).getD j 0
      = ([7, 8, 9, 250, 10, 11, 12, 13] : List Nat).getD j 0) ∧
    (∀ j, j / 4 / 1 ≠ 0 → j / 4 / 1 ≠ 2 / 2 → j / 4 / 1 ≠ 2 - 1 →
      (DevTagStrip.embedHierarchyBits [7, 8, 9, 250, 10, 11, 12, 13] 1 2
        (DevTagStrip.bitsOfPayload [255])).getD j 0
      = ([7, 8, 9, 250, 10, 11, 12, 13] : List Nat).getD j 0) ∧
    (∀ v ∈ DevTagStrip.embedHierarchyBits [7, 8, 9, 250, 10, 11, 12, 13] 1 2
        (DevTagStrip.bitsOfPayload [255]), v < 256) :=
  c7_lsb_embed_frame [7, 8, 9, 250, 10, 11, 12, 13] 1 2 [255] (by decide)

/-! ## Perceptual scanner (decoder/decode.ts)

The Pearson correlation of the source (compare) divides by Math.sqrt
values, which are floating point; the scanners therefore take the score
function as a parameter, and every theorem below holds for an arbitrary
score function, in particular for the source's. Grayscale averages are
exact rationals. -/

namespace Decode

/-- Grayscale tile extraction of decode.ts: tile[y][x] is the RGB average
of the pixel at (startX + x, startY + y) when both coordinates pass the
guard px < width && py < width, and 0 otherwise. The guard tests py
against the width (the source comment says assuming square-ish). -/
def extractTile (data : List Nat) (width startX startY tileSize : Nat) : List (List ℚ) :=
  (List.range tileSize).map (fun y =>
    (List.range tileSize).map (fun x =>
      if startX + x < width ∧ startY + y < width then
        ((data.getD (((startY + y) * width + (startX + x)) * 4) 0 : ℚ)
          + (data.getD (((startY + y) * width + (startX + x)) * 4 + 1) 0 : ℚ)
          + (data.getD (((startY + y) * width + (startX + x)) * 4 + 2) 0 : ℚ)) / 3
      else 0))

/-- Registry entry of decode.ts build: path, type, depth and the
synthesized reference pattern. -/
structure RegEntry where
  path : List Nat
  type : List Nat
  depth : Nat
  pattern : List (List ℚ)

/-- Accumulated match of scan: path, type, best score, tile count. -/
structure ScanMatch where
  path : List Nat
  type : List Nat
  score : ℚ
  count : Nat
deriving DecidableEq

/-- Fixed grid step of scan (const step = 32). -/
def scanStep : Nat := 32

/-- The positions 0, step, 2*step, ... strictly below limit that a
for (p = 0; p < limit; p += step) loop visits. -/
def sweep (limit step : Nat) : List Nat :=
  (List.range ((limit + step - 1) / step)).map (fun i => i * step)

/-- Vertical grid positions of scan: y < height - tileSize in steps of 32. -/
def scanYs (height tileSize : Nat) : List Nat := sweep (height - tileSize) scanStep

/-- Horizontal grid positions of scan. -/
def scanXs (width tileSize : Nat) : List Nat := sweep (width - tileSize) scanStep

/-- Map update of scan for one entry whose score passed the threshold:
bump count and keep the max score if the path is present, append a fresh
match otherwise (insertion order, as a JavaScript Map). -/
def updateMatches (m : List ScanMatch) (e : RegEntry) (score : ℚ) : List ScanMatch :=
  if m.any (fun a => a.path == e.path) then
    m.map (fun a => if a.path == e.path then
      { a with count := a.count + 1, score := max a.score score } else a)
  else m ++ [{ path := e.path, type := e.type, score := score, count := 1 }]

/-- Per-entry step of scan: score the tile against the entry and record a
hit when score > threshold. -/
def scanStepFn (cmp : List (List ℚ) → List (List ℚ) → ℚ) (tile : List (List ℚ))
    (threshold : ℚ) (m : List ScanMatch) (e : RegEntry) : List ScanMatch :=
  if threshold < cmp tile e.pattern then updateMatches m e (cmp tile e.pattern) else m

/-- Final ordering of scan: count descending, then score descending. -/
def sortMatches (l : List ScanMatch) : List ScanMatch :=
  l.mergeSort (fun a b => if a.count = b.count then decide (b.score ≤ a.score)
    else decide (b.count ≤ a.count))

/-- scan of decode.ts over a width x height pixel buffer: sweep the grid,
score every sampled tile against every registry entry, accumulate
(count, max score) per matched path, and sort. -/
def scan (cmp : List (List ℚ) → List (List ℚ) → ℚ) (width height : Nat) (data : List Nat)
    (registry : List RegEntry) (tileSize : Nat) (threshold : ℚ) : List ScanMatch :=
  sortMatches ((scanYs height tileSize).foldl (fun m y =>
    (scanXs width tileSize).foldl (fun m x =>
      registry.foldl (fun m e =>
        scanStepFn cmp (extractTile data width x y tileSize) threshold m e) m) m) [])

/-- Every (y, x, entry) triple the sweep visits, in visit order. -/
def scanVisits (width height : Nat) (registry : List RegEntry) (tileSize : Nat) :
    List (Nat × Nat × RegEntry) :=
  (scanYs height tileSize).flatMap (fun y =>
    (scanXs width tileSize).flatMap (fun x => registry.map (fun e => (y, x, e))))

end Decode

namespace DecodeNoise

/-- Registry entry of decode-noise buildRegistry (the reference is a tile
hash, abstracted to a number). -/
structure NoiseEntry where
  path : List Nat
  type : List Nat
  depth : Nat
  hash : Nat

/-- Found record of scanImage. -/
structure FoundEntry where
  path : List Nat
  type : List Nat
  count : Nat
deriving DecidableEq

/-- Grid step of scanImage (const step = tileSize * 2). -/
def scanImageStep (tileSize : Nat) : Nat := tileSize * 2

/-- scanImage of decode-noise.ts: sweep the grid in steps of twice the
tile size, look each sampled tile hash up in the registry, count hits per
path, and sort by count. The tile hash of the source goes through
float-to-string joins, so it is a parameter thash of the position. -/
def scanImage (thash : Nat → Nat → Nat) (width height : Nat) (registry : List NoiseEntry)
    (tileSize : Nat) : List FoundEntry :=
  ((Decode.sweep (height - tileSize) (scanImageStep tileSize)).foldl (fun f y =>
    (Decode.sweep (width - tileSize) (scanImageStep tileSize)).foldl (fun f x =>
      match registry.find? (fun r => r.hash == thash x y) with
      | some mtch =>
        if f.any (fun e => e.path == mtch.path) then
          f.map (fun e => if e.path == mtch.path then { e with count := e.count + 1 } else e)
        else f ++ [{ path := mtch.path, type := mtch.type, count := 1 }]
      | none => f) f) []).mergeSort (fun a b => decide (b.count ≤ a.count))

end DecodeNoise

/-- C10. extractTile guards both coordinates against the image width only:
the tile entry at (x, y) is the RGB-average gray of the pixel exactly when
startX + x < width and startY + y < width, and 0 otherwise; in particular
every entry whose pixel row startY + y is at or past width is zero-filled,
whatever the image height and however long the pixel buffer is. -/
theorem c10_extract_tile_width_guard (data : List Nat)
    (width startX startY tileSize x y : Nat) (hx : x < tileSize) (hy : y < tileSize) :
    (((Decode.extractTile data width startX startY tileSize).getD y []).getD x 0
      = if startX + x < width ∧ startY + y < width then
          ((data.getD (((startY + y) * width + (startX + x)) * 4) 0 : ℚ)
            + (data.getD (((startY + y) * width + (startX + x)) * 4 + 1) 0 : ℚ)
            + (data.getD (((startY + y) * width + (startX + x)) * 4 + 2) 0 : ℚ)) / 3
        else 0) ∧
    (width ≤ startY + y →
      ((Decode.extractTile data width startX startY tileSize).getD y []).getD x 0 = 0) := by
  have hmain : ((Decode.extractTile data width startX startY tileSize).getD y []).getD x 0
      = if startX + x < width ∧ startY + y < width then
          ((data.getD (((startY + y) * width + (startX + x)) * 4) 0 : ℚ)
            + (data.getD (((startY + y) * width + (startX + x)) * 4 + 1) 0 : ℚ)
            + (data.getD (((startY + y) * width + (startX + x)) * 4 + 2) 0 : ℚ)) / 3
        else 0 := by
    unfold Decode.extractTile
    simp only [List.getD_eq_getElem?_getD, List.getElem?_map, List.getElem?_range hy]
    simp only [Option.map_some', Option.getD_some, List.getElem?_map]
    rw [List.getElem?_range hx]
    simp
  refine ⟨hmain, fun hwy => ?_⟩
  rw [hmain]
  have : ¬ (startX + x < width ∧ startY + y < width) := by omega
  simp [this]

theorem c10_extract_tile_width_guard_witness :
    ((((Decode.extractTile [10, 20, 30, 255, 90, 90, 90, 255] 1 0 1 1).getD 0 []).getD 0 0
      = if 0 + 0 < 1 ∧ 1 + 0 < 1 then
          (((([10, 20, 30, 255, 90, 90, 90, 255] : List Nat).getD (((1 + 0) * 1 + (0 + 0)) * 4) 0 : ℚ)
            + (([10, 20, 30, 255, 90, 90, 90, 255] : List Nat).getD (((1 + 0) * 1 + (0 + 0)) * 4 + 1) 0 : ℚ)
            + (([10, 20, 30, 255, 90, 90, 90, 255] : List Nat).getD (((1 + 0) * 1 + (0 + 0)) * 4 + 2) 0 : ℚ)) / 3)
        else 0) ∧
    (1 ≤ 1 + 0 →
      (((Decode.extractTile [10, 20, 30, 255, 90, 90, 90, 255] 1 0 1 1).getD 0 []).getD 0 0 = 0))) :=
  c10_extract_tile_width_guard [10, 20, 30, 255, 90, 90, 90, 255] 1 0 1 1 0 0
    (by decide) (by decide)

namespace Decode

/-- Paths of the accumulated matches (the keys of the JavaScript Map). -/
def matchPaths (m : List ScanMatch) : List (List Nat) := m.map (fun a => a.path)

theorem matchPaths_updateMatches (m : List ScanMatch) (e : RegEntry) (s : ℚ) :
    matchPaths (updateMatches m e s)
      = if e.path ∈ matchPaths m then matchPaths m else matchPaths m ++ [e.path] := by
  unfold updateMatches matchPaths
  have hany : (m.any fun a => a.path == e.path) = true ↔ e.path ∈ m.map (fun a => a.path) := by
    rw [List.any_eq_true]
    constructor
    · rintro ⟨a, ha, hpa⟩
      rw [List.mem_map]
      exact ⟨a, ha, by simpa using hpa⟩
    · intro hmem
      rw [List.mem_map] at hmem
      obtain ⟨a, ha, hpa⟩ := hmem
      exact ⟨a, ha, by simp [hpa]⟩
  by_cases hc : (m.any fun a => a.path == e.path) = true
  · rw [if_pos hc, if_pos (hany.mp hc)]
    rw [List.map_map]
    apply List.map_congr_left
    intro a ha
    by_cases hpa : a.path = e.path <;> simp [hpa]
  · rw [if_neg hc, if_neg (fun hm => hc (hany.mpr hm))]
    simp

theorem matchPaths_scanStepFn (cmp : List (List ℚ) → List (List ℚ) → ℚ)
    (tile : List (List ℚ)) (t : ℚ) (m : List ScanMatch) (e : RegEntry) :
    matchPaths (scanStepFn cmp tile t m e)
      = if t < cmp tile e.pattern then
          (if e.path ∈ matchPaths m then matchPaths m else matchPaths m ++ [e.path])
        else matchPaths m := by
  unfold scanStepFn
  by_cases hc : t < cmp tile e.pattern
  · rw [if_pos hc, if_pos hc, matchPaths_updateMatches]
  · rw [if_neg hc, if_neg hc]

theorem matchPaths_scanStepFn_mono (cmp : List (List ℚ) → List (List ℚ) → ℚ)
    (tile : List (List ℚ)) (t : ℚ) (m : List ScanMatch) (e : RegEntry) :
    matchPaths m ⊆ matchPaths (scanStepFn cmp tile t m e) := by
  rw [matchPaths_scanStepFn]
  split
  · split
    · exact fun k hk => hk
    · exact fun k hk => List.mem_append_left _ hk
  · exact fun k hk => hk

theorem matchPaths_scanStepFn_nodup (cmp : List (List ℚ) → List (List ℚ) → ℚ)
    (tile : List (List ℚ)) (t : ℚ) (m : List ScanMatch) (e : RegEntry)
    (h : (matchPaths m).Nodup) : (matchPaths (scanStepFn cmp tile t m e)).Nodup := by
  rw [matchPaths_scanStepFn]
  split
  · split
    · exact h
    · rename_i hmem
      simp [List.nodup_append, h, hmem]
  · exact h

theorem scanFold_subset (cmp : List (List ℚ) → List (List ℚ) → ℚ)
    (data : List Nat) (width tileSize : Nat) (t1 t2 : ℚ) (h12 : t1 ≤ t2) :
    ∀ (visits : List (Nat × Nat × RegEntry)) (m1 m2 : List ScanMatch),
      matchPaths m2 ⊆ matchPaths m1 → (matchPaths m1).Nodup → (matchPaths m2).Nodup →
      matchPaths (visits.foldl (fun m v =>
          scanStepFn cmp (extractTile data width v.2.1 v.1 tileSize) t2 m v.2.2) m2)
        ⊆ matchPaths (visits.foldl (fun m v =>
          scanStepFn cmp (extractTile data width v.2.1 v.1 tileSize) t1 m v.2.2) m1) ∧
      (matchPaths (visits.foldl (fun m v =>
          scanStepFn cmp (extractTile data width v.2.1 v.1 tileSize) t1 m v.2.2) m1)).Nodup ∧
      (matchPaths (visits.foldl (fun m v =>
          scanStepFn cmp (extractTile data width v.2.1 v.1 tileSize) t2 m v.2.2) m2)).Nodup := by
  intro visits
  induction visits with
  | nil =>
    intro m1 m2 hsub h1 h2
    exact ⟨hsub, h1, h2⟩
  | cons v vs ih =>
    intro m1 m2 hsub h1 h2
    simp only [List.foldl_cons]
    apply ih
    · intro k hk
      rw [matchPaths_scanStepFn] at hk ⊢
      by_cases ht2 : t2 < cmp (extractTile data width v.2.1 v.1 tileSize) v.2.2.pattern
      · have ht1 : t1 < cmp (extractTile data width v.2.1 v.1 tileSize) v.2.2.pattern :=
          lt_of_le_of_lt h12 ht2
        rw [if_pos ht2] at hk
        rw [if_pos ht1]
        have hk' : k ∈ matchPaths m2 ∨ k = v.2.2.path := by
          by_cases hmem : v.2.2.path ∈ matchPaths m2
          · rw [if_pos hmem] at hk
            exact Or.inl hk
          · rw [if_neg hmem] at hk
            rcases List.mem_append.mp hk with h | h
            · exact Or.inl h
            · simp at h
              exact Or.inr h
        rcases hk' with h | h
        · split
          · exact hsub h
          · exact List.mem_append_left _ (hsub h)
        · subst h
          split
          · assumption
          · exact List.mem_append_right _ (by simp)
      · rw [if_neg ht2] at hk
        by_cases ht1 : t1 < cmp (extractTile data width v.2.1 v.1 tileSize) v.2.2.pattern
        · rw [if_pos ht1]
          split
          · exact hsub hk
          · exact List.mem_append_left _ (hsub hk)
        · rw [if_neg ht1]
          exact hsub hk
    · exact matchPaths_scanStepFn_nodup _ _ _ _ _ h1
    · exact matchPaths_scanStepFn_nodup _ _ _ _ _ h2

theorem foldl_flatMap {α β γ : Type} (f : β → α → β) (g : γ → List α) (l : List γ)
    (init : β) :
    (l.flatMap g).foldl f init = l.foldl (fun acc c => (g c).foldl f acc) init := by
  induction l generalizing init with
  | nil => rfl
  | cons c cs ih =>
    simp only [List.flatMap_cons, List.foldl_append, List.foldl_cons]
    exact ih _

theorem scan_eq_visits (cmp : List (List ℚ) → List (List ℚ) → ℚ) (width height : Nat)
    (data : List Nat) (registry : List RegEntry) (tileSize : Nat) (threshold : ℚ) :
    scan cmp width height data registry tileSize threshold
      = sortMatches ((scanVisits width height registry tileSize).foldl
          (fun m v => scanStepFn cmp (extractTile data width v.2.1 v.1 tileSize)
            threshold m v.2.2) []) := by
  unfold scan scanVisits
  simp only [foldl_flatMap, List.foldl_map]

theorem nodup_subset_length_le {l1 l2 : List (List Nat)} (h1 : l1.Nodup) (hsub : l1 ⊆ l2) :
    l1.length ≤ l2.length := by
  calc l1.length = l1.toFinset.card := (List.toFinset_card_of_nodup h1).symm
    _ ≤ l2.toFinset.card := Finset.card_le_card (fun a ha =>
        List.mem_toFinset.mpr (hsub (List.mem_toFinset.mp ha)))
    _ ≤ l2.length := List.toFinset_card_le l2

end Decode

/-- C8. Threshold monotonicity of the perceptual scan: for every fixed
image buffer, registry and tile size, and for every score function (in
particular the Pearson correlation the source computes in floating point),
raising the threshold never increases the number of reported matches:
with t1 <= t2 the scan at t2 reports at most as many entries as at t1. -/
theorem c8_scan_threshold_monotone (cmp : List (List ℚ) → List (List ℚ) → ℚ)
    (width height : Nat) (data : List Nat) (registry : List Decode.RegEntry)
    (tileSize : Nat) (t1 t2 : ℚ) (h : t1 ≤ t2) :
    (Decode.scan cmp width height data registry tileSize t2).length
      ≤ (Decode.scan cmp width height data registry tileSize t1).length := by
  rw [Decode.scan_eq_visits, Decode.scan_eq_visits]
  unfold Decode.sortMatches
  rw [List.length_mergeSort, List.length_mergeSort]
  have hlen : ∀ m : List Decode.ScanMatch, m.length = (Decode.matchPaths m).length := by
    intro m
    unfold Decode.matchPaths
    rw [List.length_map]
  rw [hlen, hlen]
  have hmain := Decode.scanFold_subset cmp data width tileSize t1 t2 h
    (Decode.scanVisits width height registry tileSize) [] []
    (fun k hk => hk) (by simp [Decode.matchPaths]) (by simp [Decode.matchPaths])
  exact Decode.nodup_subset_length_le hmain.2.2 hmain.1

theorem c8_scan_threshold_monotone_witness :
    (Decode.scan (fun _ _ => 1) 96 96 (List.replicate 36864 200)
        [{ path := [65], type := [112], depth := 1, pattern := [[1]] }] 64 (1 : ℚ)).length
      ≤ (Decode.scan (fun _ _ => 1) 96 96 (List.replicate 36864 200)
        [{ path := [65], type := [112], depth := 1, pattern := [[1]] }] 64 (0 : ℚ)).length :=
  c8_scan_threshold_monotone (fun _ _ => 1) 96 96 (List.replicate 36864 200)
    [{ path := [65], type := [112], depth := 1, pattern := [[1]] }] 64 0 1 (by norm_num)

theorem length_flatMap_const {γ α : Type} (l : List γ) (g : γ → List α) (c : Nat)
    (h : ∀ x ∈ l, (g x).length = c) : (l.flatMap g).length = l.length * c := by
  induction l with
  | nil => simp
  | cons a as ih =>
    simp only [List.flatMap_cons, List.length_append, List.length_cons]
    rw [h a (List.mem_cons_self a as), ih (fun x hx => h x (List.mem_cons_of_mem a hx))]
    ring

/-- C9. Amended sweep geometry of the perceptual scanners. decode.ts scan
sweeps with the fixed step 32 (half of the default tile size 64, strictly
below the tile size exactly when 32 < tileSize): adjacent grid positions
are 32 apart, the visited triples are the full product of the y positions,
the x positions and the registry, and scan is the fold of the scoring step
over this product with no early termination. decode-noise.ts scanImage
sweeps with step tileSize * 2, which is never below the tile size, so its
adjacent samples do not overlap. -/
theorem c9_sweep_geometry :
    (∀ (cmp : List (List ℚ) → List (List ℚ) → ℚ) (width height : Nat) (data : List Nat)
       (registry : List Decode.RegEntry) (tileSize : Nat) (threshold : ℚ),
       Decode.scan cmp width height data registry tileSize threshold
         = Decode.sortMatches ((Decode.scanVisits width height registry tileSize).foldl
             (fun m v => Decode.scanStepFn cmp
               (Decode.extractTile data width v.2.1 v.1 tileSize) threshold m v.2.2) [])) ∧
    (∀ (width height : Nat) (registry : List Decode.RegEntry) (tileSize : Nat),
       (Decode.scanVisits width height registry tileSize).length
         = (Decode.scanYs height tileSize).length
           * ((Decode.scanXs width tileSize).length * registry.length)) ∧
    Decode.scanStep = 32 ∧
    (∀ tileSize : Nat, Decode.scanStep < tileSize ↔ 32 < tileSize) ∧
    (∀ limit i : Nat, i + 1 < (Decode.sweep limit Decode.scanStep).length →
       (Decode.sweep limit Decode.scanStep).getD (i + 1) 0
         = (Decode.sweep limit Decode.scanStep).getD i 0 + 32) ∧
    (∀ tileSize : Nat, DecodeNoise.scanImageStep tileSize = 2 * tileSize ∧
       ¬ DecodeNoise.scanImageStep tileSize < tileSize) := by
  refine ⟨Decode.scan_eq_visits, ?_, rfl, fun tileSize => Iff.rfl, ?_, ?_⟩
  · intro width height registry tileSize
    unfold Decode.scanVisits
    rw [length_flatMap_const _ _ ((Decode.scanXs width tileSize).length * registry.length)]
    intro y hy
    rw [length_flatMap_const _ _ registry.length]
    intro x hx
    rw [List.length_map]
  · intro limit i hi
    have hlen : (Decode.sweep limit Decode.scanStep).length
        = (limit + Decode.scanStep - 1) / Decode.scanStep := by
      unfold Decode.sweep
      rw [List.length_map, List.length_range]
    have hi' : i + 1 < (limit + Decode.scanStep - 1) / Decode.scanStep := by
      rw [hlen] at hi
      exact hi
    have hget : ∀ k : Nat, k < (limit + Decode.scanStep - 1) / Decode.scanStep →
        (Decode.sweep limit Decode.scanStep).getD k 0 = k * Decode.scanStep := by
      intro k hk
      unfold Decode.sweep
      rw [List.getD_eq_getElem?_getD, List.getElem?_map, List.getElem?_range hk]
      rfl
    rw [hget (i + 1) hi', hget i (by omega)]
    unfold Decode.scanStep
    ring
  · intro tileSize
    unfold DecodeNoise.scanImageStep
    exact ⟨by ring, by omega⟩

theorem c9_sweep_geometry_witness :
    (Decode.sweep 33 Decode.scanStep).getD 1 0 = (Decode.sweep 33 Decode.scanStep).getD 0 0 + 32 ∧
    (DecodeNoise.scanImageStep 16 = 2 * 16 ∧ ¬ DecodeNoise.scanImageStep 16 < 16) :=
  ⟨c9_sweep_geometry.2.2.2.2.1 33 0 (by decide), c9_sweep_geometry.2.2.2.2.2 16⟩

/-- C9. Counterexample to the claim as stated: the step of decode.ts scan
is the constant 32 whatever the tile size, so at tileSize = 16 the sweep
positions for a 49-pixel dimension are 0 and 32, adjacent samples 32 apart
do not overlap as 16-pixel tiles, and 32 is not strictly less than 16;
decode-noise.ts scanImage uses step 128 at the default tile size 64, which
is not strictly less than 64 either. -/
theorem c9_sweep_geometry_cex :
    Decode.scanYs 49 16 = [0, 32] ∧ ¬ Decode.scanStep < 16 ∧ ¬ (32 - 0 < 16) ∧
    DecodeNoise.scanImageStep 64 = 128 ∧ ¬ DecodeNoise.scanImageStep 64 < 64 := by
  decide
